import Mathlib

/-!
Verification of the routing core of the `rocket` web framework snapshot.

The embedding covers:
* the character-scan collision algorithm (`src/lib/src/router/collider.rs`),
* URI segment parsing and the URI/route colliders
  (`src/lib/src/router/uri.rs`, `src/lib/src/router/route.rs`),
* the router table (`src/lib/src/router/mod.rs`),
* the dispatch engine, HEAD fallback, catcher escalation and cookie-delta
  handling (`src/core/lib/src/rocket.rs`),
* request parameter lookup (`src/lib/src/request/request.rs`).

Strings from the source are embedded as `List Char`; machine `usize`/`isize`
cursor arithmetic of the scans is replaced by structural recursion over the
character lists (left-to-right) and over the reversed lists (right-to-left),
which is exactly the walk the `isize` cursors perform.
-/

namespace Rocket

/-- Embedding of `do_match_until(break_c, a, b, /* dir */ true)` from
`src/lib/src/router/collider.rs` (`index_match_until`, lines 5-31): both
cursors start at the left end and advance together; the scan succeeds when
either string is exhausted or either current character equals `breakC`, and
fails on the first character mismatch before that. The right-to-left scan
(`dir = false`) is the same walk over the reversed strings. Only the
`is_some` view of `index_match_until` is consumed by the collider
(`do_match_until`), so the embedding returns the `Bool` directly. -/
def matchUntil (breakC : Char) : List Char → List Char → Bool
  | c1 :: as, c2 :: bs =>
    if c1 = breakC ∨ c2 = breakC then true
    else if c1 ≠ c2 then false
    else matchUntil breakC as bs
  | _, _ => true

/-- Embedding of `do_match_until` with its direction flag: `dir = true` scans
left-to-right, `dir = false` scans right-to-left (the `isize` cursors start at
the right end and step by `-1`, which is the left-to-right walk of the
reversed strings). -/
def doMatchUntil (breakC : Char) (a b : List Char) (dir : Bool) : Bool :=
  if dir then matchUntil breakC a b
  else matchUntil breakC a.reverse b.reverse

/-- Embedding of `impl Collider<str> for &str` (`collider.rs` lines 33-38):
two segment strings are collision-capable iff the left-to-right scan up to
the dynamic-open marker `<` and the right-to-left scan up to the
dynamic-close marker `>` both succeed. -/
def strCollidesWith (a b : List Char) : Bool :=
  doMatchUntil '<' a b true && doMatchUntil '>' a b false

/-- Embedding of the `Segments` iterator (`src/lib/src/router/uri.rs`,
`Segments::next`, lines 150-185) as a single linear scan: runs of the
separator `/` are skipped, and each maximal run of non-separator characters
is emitted as one segment. `cur` holds the characters of the segment being
scanned, in reverse order; `cur = []` means the scan is currently between
segments (i.e. skipping separators). The lemmas `segments_nil`,
`segments_slash_cons` and `segments_cons` below recover the iterator's
skip-while/take-while presentation exactly. -/
def segsGo (cur : List Char) : List Char → List (List Char)
  | [] => if cur = [] then [] else [cur.reverse]
  | c :: rest =>
    if c = '/' then
      if cur = [] then segsGo [] rest else cur.reverse :: segsGo [] rest
    else segsGo (c :: cur) rest

/-- The segment sequence of a path: all maximal `/`-free nonempty runs. -/
def segments (p : List Char) : List (List Char) :=
  segsGo [] p

/-- Embedding of `URI::segment_count` (`uri.rs` lines 20-26):
`self.segments().count()`. The interior-mutability `Cell` caching is the
memoisation of this pure value and is dropped in the embedding. -/
def segmentCount (p : List Char) : Nat :=
  (segments p).length

/-- Embedding of `impl Collider for URI` (`uri.rs` lines 116-130): unequal
segment counts never collide; otherwise every corresponding segment pair
(the zip of the two segment sequences) must be collision-capable. -/
def uriCollides (a b : List Char) : Bool :=
  if segmentCount a ≠ segmentCount b then false
  else ((segments a).zip (segments b)).all fun st => strCollidesWith st.1 st.2

/-- Modelled from the spec: the HTTP method enumeration (`Method`) used for
routing. The `method.rs` module is not under `src/`; the constructors are the
methods used by the sources and tests in `src/`. -/
inductive Method where
  | get | put | post | delete | options | head | patch
deriving DecidableEq, Repr

/-- A mounted route. `method` and the deduplicated URI path string are the
fields read by the collision and routing code (`route.rs`, `mod.rs`). The
`rank` field is modelled from the spec: the spec's data model gives every
route an explicit or derived rank (`Route::ranked` appears in the tests under
`src/` but the `Route` struct under `src/` carries no rank), and none of the
routing or collision code under `src/` reads it. -/
structure Route where
  method : Method
  path : List Char
  rank : Nat
deriving DecidableEq, Repr

/-- Embedding of the memoised component count of a route
(`route.rs`, `n_components`): the segment count of its path. -/
def Route.n_components (r : Route) : Nat :=
  segmentCount r.path

/-- Embedding of `impl Collider for Route` (`route.rs` lines 74-82): differing
component counts or methods never collide; otherwise the two paths are
compared with the URI collider (pairwise segment scans). -/
def routeCollidesWith (a b : Route) : Bool :=
  if a.n_components ≠ b.n_components ∨ a.method ≠ b.method then false
  else uriCollides a.path b.path

/-! ### The router table (`src/lib/src/router/mod.rs`) -/

/-- The bucket key of a route (`mod.rs` line 28): its method paired with its
path's segment count (`type Selector = (Method, usize)`). -/
def selector (r : Route) : Method × Nat :=
  (r.method, segmentCount r.path)

/-- The router table. The source stores a `HashMap<Selector, Vec<Route>>`
filled by `add` pushing onto the selector's vector; the embedding keeps the
global insertion order and recovers each bucket as the selector-filtered
sublist, which preserves exactly the per-bucket insertion order of the
source. -/
abbrev Router := List Route

/-- Embedding of `Router::new` (`mod.rs` lines 21-25). -/
def Router.new : Router := []

/-- Embedding of `Router::add` (`mod.rs` lines 27-30): push the route onto
its selector's bucket. -/
def Router.add (r : Router) (route : Route) : Router :=
  r ++ [route]

/-- The bucket of a selector: `self.routes.get(&selector)` (insertion-ordered
vector of the routes added with that selector). -/
def Router.bucket (r : Router) (s : Method × Nat) : List Route :=
  r.filter fun rt => selector rt = s

/-- Embedding of the matching test of `Router::route` (`mod.rs` line 41,
`r.collides_with(uri)`): the route's path is compared against the concrete
request path with the URI collider (`uri.rs` lines 138-142 route the
`URIBuf`-vs-`URI` comparison through `impl Collider for URI`). -/
def routeMatches (rt : Route) (uri : List Char) : Bool :=
  uriCollides rt.path uri

/-- Embedding of `Router::route` (`mod.rs` lines 35-50): look up the bucket
keyed by the request method and the concrete path's segment count, walk it in
insertion order keeping only routes that collide with the path, and return
the first such route (`matched_route` is only set while it is still `None`).
-/
def Router.route (r : Router) (m : Method) (uri : List Char) : Option Route :=
  ((r.bucket (m, segmentCount uri)).filter fun rt => routeMatches rt uri).head?

/-- Embedding of the inner double loop of `Router::has_collisions`
(`mod.rs` lines 55-65): some pair `(i, j)` with `i < j` in the bucket
collides. -/
def hasCollidingPair : List Route → Bool
  | [] => false
  | a :: rest => rest.any (fun b => routeCollidesWith a b) || hasCollidingPair rest

/-- Embedding of `Router::has_collisions` (`mod.rs` lines 52-69): every
bucket is scanned for a colliding pair; the result is true when any bucket
contains one. (The source also prints a warning per pair; the embedding
keeps only the returned value.) -/
def Router.has_collisions (r : Router) : Bool :=
  ((r.map selector).dedup).any fun s => hasCollidingPair (r.bucket s)

/-! ### Concrete routes used by the examples and counterexamples -/

/-- The dynamic route `GET /hello/<name>` with rank 1. -/
def dynHello : Route := ⟨.get, ['/','h','e','l','l','o','/','<','n','a','m','e','>'], 1⟩

/-- The static route `GET /hello/bob` with rank 0. -/
def statHello : Route := ⟨.get, ['/','h','e','l','l','o','/','b','o','b'], 0⟩

/-- A router holding the dynamic route first (insertion order), then the
static one. -/
def routerEx : Router := Router.add (Router.add Router.new dynHello) statHello

/-- The concrete request path `/hello/bob`. -/
def helloBobPath : List Char := ['/','h','e','l','l','o','/','b','o','b']

/-- The route `GET /<a>` with rank 0. -/
def slashA : Route := ⟨.get, ['/','<','a','>'], 0⟩

/-- The route `GET /<a>` with rank 1. -/
def slashA1 : Route := ⟨.get, ['/','<','a','>'], 1⟩

/-- The route `GET /hello` with rank 0. -/
def slashHello : Route := ⟨.get, ['/','h','e','l','l','o'], 0⟩

/-- A router with the same-rank pair `/<a>` and `/hello`. -/
def routerSameRank : Router := Router.add (Router.add Router.new slashA) slashHello

/-- A router with the non-colliding pair `/a` and `/b`. -/
def routerAB : Router :=
  Router.add (Router.add Router.new ⟨.get, ['/','a'], 0⟩) ⟨.get, ['/','b'], 0⟩

/-- A router with a colliding pair of different ranks. -/
def routerDiffRank : Router := Router.add (Router.add Router.new slashHello) slashA1

/-! ### Spec-side separator normal form (claim C7) -/

/-- Modelled from the claim: collapse every run of two or more consecutive
separators into a single separator (the spec's collapsing rule, written from
its words, to be compared with the `segments` function embedded from the
source). -/
def collapseRuns : List Char → List Char
  | [] => []
  | [c] => [c]
  | c :: d :: rest =>
    if c = '/' ∧ d = '/' then collapseRuns (d :: rest)
    else c :: collapseRuns (d :: rest)

/-- Modelled from the claim: remove trailing separators. -/
def trimTrailing (p : List Char) : List Char :=
  (p.reverse.dropWhile (· = '/')).reverse

/-- Modelled from the claim: the path with repeated separator runs collapsed
and leading and trailing separators removed. -/
def collapsePath (p : List Char) : List Char :=
  trimTrailing ((collapseRuns p).dropWhile (· = '/'))

/-! ### The dispatch engine (`src/core/lib/src/rocket.rs`) -/

/-- The request body handle (`Data`): opaque to the engine, which only passes
it to handlers and threads the remaining input returned by a `Forward`.
Embedded as a number. -/
abbrev Data := Nat

/-- The pending (delta) state of the request's cookie jar: the
response-scoped cookie mutations accumulated so far. The source mutates this
state through the request's interior-mutable jar; the embedding passes it
explicitly. -/
abbrev Delta := List String

/-- A response: status code, header list in adjoin order, optional body. -/
structure Response where
  status : Nat
  headers : List (String × String)
  body : Option String
deriving DecidableEq, Repr

/-- Embedding of the tri-state handler `Outcome` (declared outside `src/`;
its three variants are fixed by the spec's data model and by the matches in
`Rocket::route` and `Rocket::route_and_process`): a terminal response, a
terminal failure status, or a decline carrying the unconsumed data. -/
inductive Outcome where
  | success : Response → Outcome
  | failure : Nat → Outcome
  | forward : Data → Outcome
deriving DecidableEq, Repr

/-- A route handler: `handle(request, data) -> Outcome`, with the request's
cookie-delta state threaded explicitly. -/
abbrev Handler := Data → Delta → Outcome × Delta

/-- The result a catcher handler returns (`Result<Response, Status>` in
`Rocket::handle_error`). -/
inductive CatchResult where
  | ok : Response → CatchResult
  | err : Nat → CatchResult
deriving DecidableEq, Repr

/-- A catcher handler: `handle(status, request)`, with the request's
cookie-delta state threaded explicitly. -/
abbrev Catcher := Nat → Delta → CatchResult × Delta

/-- The engine state a dispatch reads (`Rocket`'s fields): the candidate
sequence the router yields for each method (the request path is fixed for
one dispatch, and the HEAD fallback rewrites only the method), the
status-keyed catchers, the single optional default catcher, the built-in
response generator, and the response fairings. `builtin` is modelled from
the spec: `crate::catcher::default` is not under `src/` and the spec
specifies one built-in generator that cannot itself fail. `fairings` is the
external response-fairing collaborator, kept abstract. -/
structure Env where
  candidates : Method → List Handler
  catchers : Nat → Option Catcher
  defaultCatcher : Option Catcher
  builtin : Nat → Response
  fairings : Response → Response

/-- Embedding of the candidate loop of `Rocket::route`
(`src/core/lib/src/rocket.rs` lines 256-285), instrumented with a ghost
trace: the returned list records, in order, the data handle passed to each
handler that was invoked. A `Success` or `Failure` outcome returns
immediately; a `Forward` replaces the data with the returned unused data and
continues; an exhausted list forwards the remaining data. -/
def routeAux : List Handler → Data → Delta → (Outcome × Delta) × List Data
  | [], d, δ => ((.forward d, δ), [])
  | h :: rest, d, δ =>
    match h d δ with
    | (.success r, δ1) => ((.success r, δ1), [d])
    | (.failure s, δ1) => ((.failure s, δ1), [d])
    | (.forward d1, δ1) =>
      let res := routeAux rest d1 δ1
      (res.1, d :: res.2)

/-- The outcome of `Rocket::route` (the trace projected away). -/
def route (hs : List Handler) (d : Data) (δ : Delta) : Outcome × Delta :=
  (routeAux hs d δ).1

/-- The ghost invocation trace of `Rocket::route`. -/
def routeTrace (hs : List Handler) (d : Data) (δ : Delta) : List Data :=
  (routeAux hs d δ).2

/-- Embedding of `Rocket::handle_error` (`src/core/lib/src/rocket.rs` lines
324-360): reset the request's cookie delta, then run the exact-status
catcher if registered, else the default catcher if registered, else the
built-in generator; a handler failure (`Err`) falls back to the built-in 500
response. -/
def handle_error (env : Env) (status : Nat) : Delta → Response × Delta :=
  fun _ =>
    let δ0 : Delta := []
    let rd :=
      match env.catchers status with
      | some c => c status δ0
      | none =>
        match env.defaultCatcher with
        | some dc => dc status δ0
        | none => (CatchResult.ok (env.builtin status), δ0)
    match rd with
    | (.ok r, δ1) => (r, δ1)
    | (.err _, δ1) => (env.builtin 500, δ1)

/-- The cookie merge at the end of `Rocket::route_and_process` (lines
233-241): each pending delta cookie is adjoined to the response's headers. -/
def mergeDelta (r : Response) (δ : Delta) : Response :=
  ⟨r.status, r.headers ++ δ.map (fun c => ("Set-Cookie", c)), r.body⟩

/-- Embedding of `Rocket::route_and_process` (`src/core/lib/src/rocket.rs`
lines 205-242): route the request; on `Success` keep the response; on
`Forward` either retry the whole dispatch once with the method rewritten to
GET (for a HEAD request, returning early so the delta is merged only by the
retry) or escalate to not-found (404) handling; on `Failure` escalate to the
status's catcher; finally merge the pending cookie delta into the response.
-/
def route_and_process (env : Env) (m : Method) (d : Data) (δ : Delta) : Response :=
  match route (env.candidates m) d δ with
  | (.success resp, δ1) => mergeDelta resp δ1
  | (.forward d1, δ1) =>
    if hm : m = Method.head then
      route_and_process env Method.get d1 δ1
    else
      let rd := handle_error env 404 δ1
      mergeDelta rd.1 rd.2
  | (.failure s, δ1) =>
    let rd := handle_error env s δ1
    mergeDelta rd.1 rd.2
termination_by (if m = Method.head then 1 else 0)
decreasing_by simp [hm]

/-- Modelled from the spec: `Response::strip_body` (the `Response` type is
not under `src/`): the body is removed, status and headers are unchanged. -/
def stripBody (r : Response) : Response :=
  ⟨r.status, r.headers, none⟩

/-- The default `Server` header step of `Rocket::dispatch` (lines 302-306):
added only when no `Server` header is present. -/
def serverHeader (r : Response) : Response :=
  if r.headers.any (fun h => h.1 = "Server") then r
  else ⟨r.status, r.headers ++ [("Server", "Rocket")], r.body⟩

/-- The post-routing steps of `Rocket::dispatch`: default `Server` header,
then the response fairings. -/
def postProcess (env : Env) (r : Response) : Response :=
  env.fairings (serverHeader r)

/-- Embedding of `Rocket::dispatch` (`src/core/lib/src/rocket.rs` lines
288-317): remember whether the request was a HEAD request, route and
process, add the default `Server` header, run the response fairings, and
strip the body iff the original request was HEAD. -/
def dispatch (env : Env) (m : Method) (d : Data) (δ : Delta) : Response :=
  let resp := postProcess env (route_and_process env m d δ)
  if m = Method.head then stripBody resp else resp

/-! ### Request parameters (`src/lib/src/request/request.rs`) -/

/-- The observable result of `Request::get_param`: a converted value, one of
the two `Error` variants, or a crash of the evaluation. -/
inductive ParamOutcome (T : Type) where
  | ok : T → ParamOutcome T
  | noKey : ParamOutcome T
  | badParse : ParamOutcome T
  | panicked : ParamOutcome T
deriving DecidableEq, Repr

/-- Embedding of `Request::get_param` (`request.rs` lines 33-41). `params`
is the `RefCell` contents (`None` until `set_params` ran), `conv` the
`FromParam` conversion of the target type. `debugLogging` models whether the
`debug!` macro evaluates its format arguments (the logger module is not
under `src/`; the log macros evaluate their arguments only when the debug
level is active). In the out-of-range branch the log message itself computes
`params.as_ref().unwrap().len()`, which on unbound parameters (`None`) is a
crash of the unwrap, not a returned error. -/
def get_param {T : Type} (debugLogging : Bool) (params : Option (List (List Char)))
    (n : Nat) (conv : List Char → Option T) : ParamOutcome T :=
  if params.isNone ∨ n ≥ (params.getD []).length then
    if debugLogging ∧ params.isNone then ParamOutcome.panicked
    else ParamOutcome.noKey
  else
    match conv ((params.getD []).getD n []) with
    | some v => ParamOutcome.ok v
    | none => ParamOutcome.badParse

/-! ### Concrete handlers and engine states used by the witnesses -/

def fwdHandler : Handler := fun d δ => (.forward (d+1), δ)

def respW : Response := ⟨200, [], some "ok"⟩

def succHandler : Handler := fun _ δ => (.success respW, δ)

def failHandler : Handler := fun _ δ => (.failure 9, δ)


def envW : Env :=
  ⟨fun m => match m with
    | .head => [fun d δ => (.forward (d+1), δ)]
    | .get => [fun _ δ => (.success ⟨200, [("Content-Length", "5")], some "hello"⟩, δ)]
    | _ => [],
  fun _ => none, none, fun s => ⟨s, [], none⟩, id⟩


def envS : Env :=
  ⟨fun _ => [fun _ δ => (.success respW, "c1" :: δ)],
  fun _ => none, none, fun s => ⟨s, [], none⟩, id⟩


def envF : Env :=
  ⟨fun _ => [fun _ δ => (.failure 418, "h1" :: δ)],
  fun s => if s = 418 then some (fun st δc => (.ok ⟨st, [], none⟩, "cc" :: δc)) else none,
  none, fun s => ⟨s, [], none⟩, id⟩


/-! ### Characterisation of `Segments::next` -/

theorem segments_nil : segments ([] : List Char) = [] := rfl

/-- A leading separator is skipped: the iterator's `skip_while(|c| c == '/')`. -/
theorem segments_slash_cons (p : List Char) : segments ('/' :: p) = segments p := by
  simp [segments, segsGo]

theorem segsGo_spec (cur : List Char) (p : List Char) (h : cur ≠ []) :
    segsGo cur p =
      (cur.reverse ++ p.takeWhile (· ≠ '/')) :: segments (p.dropWhile (· ≠ '/')) := by
  induction p generalizing cur with
  | nil => simp [segsGo, segments, h]
  | cons c rest ih =>
    by_cases hc : c = '/'
    · subst hc
      simp [segsGo, h, List.takeWhile, List.dropWhile, segments]
    · simp only [segsGo, if_neg hc]
      rw [ih (c :: cur) (by simp)]
      simp [List.takeWhile, List.dropWhile, hc]

/-- On a non-separator character the iterator emits the run of characters up
to the next separator (`take_while`) and continues after it (`drop_while`):
this is the skip-while/take-while reading of `Segments::next` (uri.rs
lines 155-174). -/
theorem segments_cons {c : Char} (p : List Char) (hc : c ≠ '/') :
    segments (c :: p) =
      (c :: p.takeWhile (· ≠ '/')) :: segments (p.dropWhile (· ≠ '/')) := by
  simp only [segments, segsGo, if_neg hc]
  rw [segsGo_spec [c] p (by simp)]
  rfl

/-! ### Symmetry of the collision scans -/

theorem matchUntil_symm (breakC : Char) (a b : List Char) :
    matchUntil breakC a b = matchUntil breakC b a := by
  induction a generalizing b with
  | nil => cases b <;> rfl
  | cons c1 as ih =>
    cases b with
    | nil => rfl
    | cons c2 bs =>
      simp only [matchUntil]
      by_cases h1 : c1 = breakC ∨ c2 = breakC
      · rw [if_pos h1, if_pos (Or.symm h1)]
      · rw [if_neg h1, if_neg (fun h => h1 (Or.symm h))]
        by_cases h2 : c1 = c2
        · subst h2; simp [ih]
        · simp [h2, Ne.symm h2]

theorem strCollidesWith_symm (a b : List Char) :
    strCollidesWith a b = strCollidesWith b a := by
  simp [strCollidesWith, doMatchUntil, matchUntil_symm]

theorem uriCollides_symm (a b : List Char) :
    uriCollides a b = uriCollides b a := by
  simp only [uriCollides]
  by_cases h : segmentCount a = segmentCount b
  · simp only [h, ite_not]
    rw [← List.zip_swap (segments a) (segments b), List.all_map]
    generalize (segments a).zip (segments b) = l
    induction l with
    | nil => rfl
    | cons st t ih =>
      simp only [List.all_cons, Function.comp_apply, Prod.fst_swap, Prod.snd_swap,
        if_true] at ih ⊢
      rw [ih, strCollidesWith_symm st.1 st.2]
  · simp [h, Ne.symm h]

theorem routeCollidesWith_symm (a b : Route) :
    routeCollidesWith a b = routeCollidesWith b a := by
  simp only [routeCollidesWith]
  by_cases h : a.n_components ≠ b.n_components ∨ a.method ≠ b.method
  · have h' : b.n_components ≠ a.n_components ∨ b.method ≠ a.method := by
      rcases h with h | h
      · exact Or.inl (Ne.symm h)
      · exact Or.inr (Ne.symm h)
    rw [if_pos h, if_pos h']
  · push_neg at h
    rw [if_neg (by push_neg; exact h), if_neg (by push_neg; exact ⟨h.1.symm, h.2.symm⟩)]
    exact uriCollides_symm a.path b.path

/-- Claim C1: two routes collide exactly when they have the same method, the
same segment count, and every corresponding segment pair is
collision-capable under the bidirectional character scan (`strCollidesWith`:
left-to-right up to the dynamic-open marker and right-to-left up to the
dynamic-close marker, failing on a character mismatch before a marker or an
end is reached). -/
theorem route_collision_iff (a b : Route) :
    routeCollidesWith a b = true ↔
      a.method = b.method ∧ segmentCount a.path = segmentCount b.path ∧
      List.Forall₂ (fun s t => strCollidesWith s t = true)
        (segments a.path) (segments b.path) := by
  simp only [routeCollidesWith, Route.n_components]
  by_cases hc : segmentCount a.path = segmentCount b.path
  · by_cases hm : a.method = b.method
    · rw [if_neg (by push_neg; exact ⟨hc, hm⟩)]
      simp only [uriCollides, if_neg (show ¬¬(segmentCount a.path = segmentCount b.path) from by
        push_neg; exact hc)]
      rw [List.all_eq_true, List.forall₂_iff_zip]
      constructor
      · intro hall
        refine ⟨hm, hc, hc, ?_⟩
        intro x y hmem
        exact hall (x, y) hmem
      · rintro ⟨-, -, -, hzip⟩
        intro st hst
        exact hzip hst
    · rw [if_pos (Or.inr hm)]
      simp [hm]
  · rw [if_pos (Or.inl hc)]
    simp [hc]

/-- Claim C10: the collision relation is symmetric at every level — segment
strings, URIs, and routes — even though the scans walk the two strings with
separate cursors. -/
theorem collision_symmetric :
    (∀ a b : List Char, strCollidesWith a b = strCollidesWith b a)
    ∧ (∀ a b : List Char, uriCollides a b = uriCollides b a)
    ∧ (∀ a b : Route, routeCollidesWith a b = routeCollidesWith b a) :=
  ⟨strCollidesWith_symm, uriCollides_symm, routeCollidesWith_symm⟩

/-! ### The router table: candidate selection and collision reporting -/

theorem uriCollides_count {a b : List Char} (h : uriCollides a b = true) :
    segmentCount a = segmentCount b := by
  by_contra hne
  simp [uriCollides, hne] at h

theorem router_route_eq_first_match (r : Router) (m : Method) (uri : List Char) :
    Router.route r m uri =
      (r.filter fun rt => decide (rt.method = m) && routeMatches rt uri).head? := by
  unfold Router.route Router.bucket
  rw [List.filter_filter]
  congr 1
  apply List.filter_congr
  intro rt _
  by_cases hmatch : routeMatches rt uri = true
  · have hcount : segmentCount rt.path = segmentCount uri := uriCollides_count hmatch
    simp [selector, hmatch, hcount]
  · have hfalse : routeMatches rt uri = false := by
      simpa using hmatch
    simp [hfalse]

/-- Counterexample to claim C5: with the routes `GET /hello/<name>` (rank 1,
inserted first) and `GET /hello/bob` (rank 0, inserted second), the code
selects the rank-1 dynamic route for `GET /hello/bob`, not the rank-0 static
route the claim puts first. -/
theorem router_route_rank_counterexample :
    Router.route routerEx .get helloBobPath = some dynHello
    ∧ dynHello.rank = 1 ∧ statHello.rank = 0 ∧ dynHello ≠ statHello := by
  decide

/-- Claim C5 (amended): `Router::route` walks the `(method, segment count)`
bucket in insertion order and returns the first route that matches the path
under the collision test; rank plays no part. Equivalently, it is the first
route of the whole table, in insertion order, with the request's method and a
matching path (the bucket's segment-count key is subsumed by the matching
test). On the example table, the rank-1 dynamic route inserted first is
selected. -/
theorem router_route_insertion_order :
    (∀ (r : Router) (m : Method) (uri : List Char),
      Router.route r m uri =
        (r.filter fun rt => decide (rt.method = m) && routeMatches rt uri).head?)
    ∧ Router.route routerEx .get helloBobPath = some dynHello :=
  ⟨router_route_eq_first_match, by decide⟩

theorem hasCollidingPair_iff (l : List Route) :
    hasCollidingPair l = true ↔
      ∃ a b, [a, b].Sublist l ∧ routeCollidesWith a b = true := by
  induction l with
  | nil =>
    simp [hasCollidingPair]
  | cons x rest ih =>
    simp only [hasCollidingPair, Bool.or_eq_true, List.any_eq_true, ih]
    constructor
    · rintro (⟨b, hb, hcol⟩ | ⟨a, b, hsub, hcol⟩)
      · exact ⟨x, b, (List.singleton_sublist.mpr hb).cons₂ x, hcol⟩
      · exact ⟨a, b, hsub.cons x, hcol⟩
    · rintro ⟨a, b, hsub, hcol⟩
      cases hsub with
      | cons _ h => exact Or.inr ⟨a, b, h, hcol⟩
      | cons₂ _ h => exact Or.inl ⟨b, List.singleton_sublist.mp h, hcol⟩

theorem routeCollidesWith_selector {a b : Route} (h : routeCollidesWith a b = true) :
    selector a = selector b := by
  unfold routeCollidesWith at h
  by_cases hcond : a.n_components ≠ b.n_components ∨ a.method ≠ b.method
  · rw [if_pos hcond] at h
    exact absurd h (by simp)
  · push_neg at hcond
    have hn : segmentCount a.path = segmentCount b.path := hcond.1
    simp [selector, hn, hcond.2]

theorem has_collisions_iff (r : Router) :
    Router.has_collisions r = true ↔
      ∃ a b, [a, b].Sublist r ∧ routeCollidesWith a b = true := by
  unfold Router.has_collisions
  rw [List.any_eq_true]
  constructor
  · rintro ⟨s, _, hpair⟩
    obtain ⟨a, b, hsub, hcol⟩ := (hasCollidingPair_iff _).mp hpair
    exact ⟨a, b, hsub.trans (List.filter_sublist r), hcol⟩
  · rintro ⟨a, b, hsub, hcol⟩
    have hsel := routeCollidesWith_selector hcol
    refine ⟨selector a, ?_, ?_⟩
    · rw [List.mem_dedup]
      exact List.mem_map_of_mem selector (hsub.subset (by simp))
    · rw [hasCollidingPair_iff]
      refine ⟨a, b, ?_, hcol⟩
      have hkeep : [a, b].filter (fun rt => decide (selector rt = selector a)) = [a, b] := by
        simp [hsel]
      unfold Router.bucket
      have hfil := hsub.filter (fun rt => decide (selector rt = selector a))
      rw [hkeep] at hfil
      exact hfil

/-- Counterexample to claim C6: the colliding pair `/hello` (rank 0) and
`/<a>` (rank 1) has differing ranks, yet `has_collisions` reports it. -/
theorem has_collisions_diff_rank_counterexample :
    Router.has_collisions routerDiffRank = true
    ∧ routeCollidesWith slashHello slashA1 = true
    ∧ slashHello.rank ≠ slashA1.rank := by
  decide

/-- Claim C6 (amended): `has_collisions` enumerates all pairs within each
`(method, segment count)` bucket and reports exactly the colliding pairs,
regardless of rank. It reports same-rank `/<a>` vs `/hello` of the same
method, and does not report `/a` vs `/b`. -/
theorem has_collisions_reports_all_colliding_pairs :
    (∀ r : Router, Router.has_collisions r = true ↔
      ∃ a b, [a, b].Sublist r ∧ routeCollidesWith a b = true)
    ∧ Router.has_collisions routerSameRank = true
    ∧ Router.has_collisions routerAB = false :=
  ⟨has_collisions_iff, by decide, by decide⟩

/-! ### Separator collapse invariance of `segments` -/

theorem segments_dropWhile_slash (p : List Char) :
    segments (p.dropWhile (· = '/')) = segments p := by
  induction p with
  | nil => rfl
  | cons c rest ih =>
    by_cases hc : c = '/'
    · subst hc
      rw [List.dropWhile_cons_of_pos (by simp), ih, segments_slash_cons]
    · rw [List.dropWhile_cons_of_neg (by simpa using hc)]

theorem collapseRuns_takeWhile (p : List Char) :
    (collapseRuns p).takeWhile (· ≠ '/') = p.takeWhile (· ≠ '/') := by
  induction p with
  | nil => rfl
  | cons c tail ih =>
    cases tail with
    | nil => rfl
    | cons d rest =>
      by_cases hboth : c = '/' ∧ d = '/'
      · rw [show collapseRuns (c :: d :: rest) = collapseRuns (d :: rest) from by
          simp [collapseRuns, hboth]]
        rw [ih]
        rw [List.takeWhile_cons_of_neg (by simp [hboth.2]),
          List.takeWhile_cons_of_neg (by simp [hboth.1])]
      · rw [show collapseRuns (c :: d :: rest) = c :: collapseRuns (d :: rest) from by
          simp [collapseRuns, hboth]]
        by_cases hc : c = '/'
        · rw [List.takeWhile_cons_of_neg (by simp [hc]),
            List.takeWhile_cons_of_neg (by simp [hc])]
        · rw [List.takeWhile_cons_of_pos (by simpa using hc),
            List.takeWhile_cons_of_pos (by simpa using hc), ih]

theorem collapseRuns_dropWhile (p : List Char) :
    (collapseRuns p).dropWhile (· ≠ '/') = collapseRuns (p.dropWhile (· ≠ '/')) := by
  induction p with
  | nil => rfl
  | cons c tail ih =>
    cases tail with
    | nil =>
      by_cases hc : c = '/'
      · subst hc; rfl
      · simp [collapseRuns, List.dropWhile_cons_of_pos, hc]
    | cons d rest =>
      by_cases hboth : c = '/' ∧ d = '/'
      · rw [show collapseRuns (c :: d :: rest) = collapseRuns (d :: rest) from by
          simp [collapseRuns, hboth]]
        rw [ih]
        rw [List.dropWhile_cons_of_neg (by simp [hboth.2]),
          List.dropWhile_cons_of_neg (by simp [hboth.1])]
        rw [show collapseRuns (c :: d :: rest) = collapseRuns (d :: rest) from by
          simp [collapseRuns, hboth]]
      · rw [show collapseRuns (c :: d :: rest) = c :: collapseRuns (d :: rest) from by
          simp [collapseRuns, hboth]]
        by_cases hc : c = '/'
        · rw [List.dropWhile_cons_of_neg (by simp [hc]),
            List.dropWhile_cons_of_neg (by simp [hc])]
          rw [show collapseRuns (c :: d :: rest) = c :: collapseRuns (d :: rest) from by
            simp [collapseRuns, hboth]]
        · rw [List.dropWhile_cons_of_pos (by simpa using hc),
            List.dropWhile_cons_of_pos (by simpa using hc), ih]

theorem dropWhile_length_le (p : Char → Bool) (l : List Char) :
    (l.dropWhile p).length ≤ l.length := by
  induction l with
  | nil => simp
  | cons x xs ih =>
    by_cases hp : p x = true
    · rw [List.dropWhile_cons_of_pos hp]
      exact Nat.le_trans ih (Nat.le_succ _)
    · rw [List.dropWhile_cons_of_neg hp]

theorem collapseRuns_segments (p : List Char) :
    segments (collapseRuns p) = segments p := by
  have H : ∀ (n : Nat) (q : List Char), q.length ≤ n →
      segments (collapseRuns q) = segments q := by
    intro n
    induction n with
    | zero =>
      intro q hq
      have : q = [] := List.length_eq_zero.mp (Nat.le_zero.mp hq)
      subst this; rfl
    | succ n ih =>
      intro q hq
      match q with
      | [] => rfl
      | [c] => rfl
      | c :: d :: rest =>
        have hlen : (d :: rest).length ≤ n := by
          simp at hq ⊢; omega
        by_cases hboth : c = '/' ∧ d = '/'
        · rw [show collapseRuns (c :: d :: rest) = collapseRuns (d :: rest) from by
            simp [collapseRuns, hboth]]
          rw [ih (d :: rest) hlen]
          rw [hboth.1, segments_slash_cons]
        · rw [show collapseRuns (c :: d :: rest) = c :: collapseRuns (d :: rest) from by
            simp [collapseRuns, hboth]]
          by_cases hc : c = '/'
          · subst hc
            rw [segments_slash_cons, segments_slash_cons]
            exact ih (d :: rest) hlen
          · rw [segments_cons _ hc, segments_cons _ hc]
            rw [collapseRuns_takeWhile, collapseRuns_dropWhile]
            have hdrop : ((d :: rest).dropWhile (· ≠ '/')).length ≤ n :=
              Nat.le_trans (dropWhile_length_le _ _) hlen
            rw [ih _ hdrop]
  exact H p.length p le_rfl

theorem segments_replicate_slash (k : Nat) :
    segments (List.replicate k '/') = [] := by
  induction k with
  | zero => rfl
  | succ k ih => rw [List.replicate_succ, segments_slash_cons, ih]

theorem takeWhile_replicate_slash (k : Nat) :
    (List.replicate k '/').takeWhile (· ≠ '/') = [] := by
  cases k with
  | zero => rfl
  | succ k =>
    rw [List.replicate_succ]
    exact List.takeWhile_cons_of_neg (by simp)

theorem dropWhile_replicate_slash (k : Nat) :
    (List.replicate k '/').dropWhile (· ≠ '/') = List.replicate k '/' := by
  cases k with
  | zero => rfl
  | succ k =>
    rw [List.replicate_succ]
    exact List.dropWhile_cons_of_neg (by simp)

theorem segments_append_replicate (p : List Char) (k : Nat) :
    segments (p ++ List.replicate k '/') = segments p := by
  have H : ∀ (n : Nat) (q : List Char), q.length ≤ n →
      segments (q ++ List.replicate k '/') = segments q := by
    intro n
    induction n with
    | zero =>
      intro q hq
      have : q = [] := List.length_eq_zero.mp (Nat.le_zero.mp hq)
      subst this
      simpa using segments_replicate_slash k
    | succ n ih =>
      intro q hq
      match q with
      | [] => simpa using segments_replicate_slash k
      | c :: rest =>
        have hlen : rest.length ≤ n := by
          simp at hq; omega
        rw [List.cons_append]
        by_cases hc : c = '/'
        · subst hc
          rw [segments_slash_cons, segments_slash_cons]
          exact ih rest hlen
        · rw [segments_cons _ hc, segments_cons _ hc]
          by_cases hall : ∀ x ∈ rest, x ≠ '/'
          · have hpos : ∀ a ∈ rest, (fun x => decide (x ≠ '/')) a := by
              intro a ha
              simpa using hall a ha
            rw [List.takeWhile_append_of_pos hpos, List.dropWhile_append_of_pos hpos]
            rw [takeWhile_replicate_slash, dropWhile_replicate_slash]
            rw [segments_replicate_slash, List.append_nil]
            have hdropnil : rest.dropWhile (· ≠ '/') = [] := by
              rw [List.dropWhile_eq_nil_iff]
              exact hpos
            rw [hdropnil, segments_nil]
            have htakeall : rest.takeWhile (· ≠ '/') = rest := by
              rw [List.takeWhile_eq_self_iff]
              exact hpos
            rw [htakeall]
          · have hne : rest.dropWhile (· ≠ '/') ≠ [] := by
              intro hnil
              apply hall
              intro x hx
              have := List.dropWhile_eq_nil_iff.mp hnil x hx
              simpa using this
            have hsum : (rest.takeWhile (· ≠ '/')).length + (rest.dropWhile (· ≠ '/')).length
                = rest.length := by
              rw [← List.length_append, List.takeWhile_append_dropWhile]
            have hlenne : ¬((rest.takeWhile (· ≠ '/')).length = rest.length) := by
              intro hfull
              have hz : (rest.dropWhile (· ≠ '/')).length = 0 := by omega
              exact hne (List.length_eq_zero.mp hz)
            rw [List.takeWhile_append, if_neg hlenne]
            rw [List.dropWhile_append, if_neg (by
              simpa [List.isEmpty_iff] using hne)]
            have hdlen : (rest.dropWhile (· ≠ '/')).length ≤ n :=
              Nat.le_trans (dropWhile_length_le _ _) hlen
            rw [ih _ hdlen]
  exact H p.length p le_rfl

theorem trimTrailing_decomp (p : List Char) :
    ∃ k, p = trimTrailing p ++ List.replicate k '/' := by
  refine ⟨(p.reverse.takeWhile (· = '/')).length, ?_⟩
  have hrepl : p.reverse.takeWhile (· = '/') =
      List.replicate (p.reverse.takeWhile (· = '/')).length '/' := by
    rw [List.eq_replicate_iff]
    refine ⟨rfl, ?_⟩
    intro b hb
    simpa using List.mem_takeWhile_imp hb
  apply List.reverse_injective
  rw [List.reverse_append]
  unfold trimTrailing
  rw [List.reverse_reverse, List.reverse_replicate]
  conv_lhs => rw [← List.takeWhile_append_dropWhile (p := fun x => decide (x = '/')) p.reverse]
  rw [← hrepl]

/-- Claim C7: segment parsing collapses every run of consecutive separators
into a single boundary: for every path, the segment sequence equals that of
the same path with repeated `/` runs and leading/trailing `/` removed; in
particular `segments "//a///b//" = segments "a/b"`, and the segment counts of
equivalent paths are equal. -/
theorem segments_separator_collapse :
    (∀ p : List Char, segments (collapsePath p) = segments p)
    ∧ segments ['/','/','a','/','/','/','b','/','/'] = segments ['a','/','b']
    ∧ (∀ p : List Char, segmentCount (collapsePath p) = segmentCount p) := by
  have hmain : ∀ p : List Char, segments (collapsePath p) = segments p := by
    intro p
    unfold collapsePath
    obtain ⟨k, hk⟩ := trimTrailing_decomp ((collapseRuns p).dropWhile (· = '/'))
    have h1 : segments (trimTrailing ((collapseRuns p).dropWhile (· = '/')))
        = segments ((collapseRuns p).dropWhile (· = '/')) := by
      conv_rhs => rw [hk]
      rw [segments_append_replicate]
    rw [h1, segments_dropWhile_slash, collapseRuns_segments]
  refine ⟨hmain, by decide, fun p => ?_⟩
  rw [segmentCount, hmain p, segmentCount]

/-! ### Dispatch loop lemmas -/


theorem routeAux_forward_prefix (pre rest' : List Handler)
    (ds : Nat → Data) (δs : Nat → Delta)
    (hpre : ∀ k (hk : k < pre.length),
      pre.get ⟨k, hk⟩ (ds k) (δs k) = (.forward (ds (k+1)), δs (k+1))) :
    routeAux (pre ++ rest') (ds 0) (δs 0) =
      ((routeAux rest' (ds pre.length) (δs pre.length)).1,
        (List.range pre.length).map ds
          ++ (routeAux rest' (ds pre.length) (δs pre.length)).2) := by
  induction pre generalizing ds δs with
  | nil => simp
  | cons h0 pre ih =>
    have h00 := hpre 0 (by simp)
    simp only [List.get] at h00
    simp only [List.cons_append, routeAux, h00]
    have ihs := ih (fun k => ds (k+1)) (fun k => δs (k+1)) (fun k hk => by
      have := hpre (k+1) (by simpa using Nat.succ_lt_succ hk)
      simpa [List.get] using this)
    dsimp only at ihs
    simp only [List.append_eq]
    rw [ihs]
    simp [List.range_succ_eq_map, List.map_map, Function.comp, Nat.succ_eq_add_one]


/-- Claim C2: when the first `M` candidates forward and the `(M+1)`-th
returns a terminal outcome, the dispatch loop invokes exactly the first
`M+1` handlers, each once, in candidate order (the ghost trace records one
entry per handler position); each `Forward`'s returned remaining input is
the input passed to the next candidate; and the final outcome is produced
solely by the `(M+1)`-th handler. A `Success` or `Failure` outcome stops the
loop with no further candidates tried (both conjuncts). -/
theorem route_dispatch_loop (pre rest : List Handler) (hM : Handler)
    (ds : Nat → Data) (δs : Nat → Delta)
    (hpre : ∀ k (hk : k < pre.length),
      pre.get ⟨k, hk⟩ (ds k) (δs k) = (.forward (ds (k+1)), δs (k+1))) :
    (∀ r δr, hM (ds pre.length) (δs pre.length) = (.success r, δr) →
      routeAux (pre ++ hM :: rest) (ds 0) (δs 0) =
        ((.success r, δr), (List.range (pre.length + 1)).map ds))
    ∧ (∀ s δr, hM (ds pre.length) (δs pre.length) = (.failure s, δr) →
      routeAux (pre ++ hM :: rest) (ds 0) (δs 0) =
        ((.failure s, δr), (List.range (pre.length + 1)).map ds)) := by
  have hbase := routeAux_forward_prefix pre (hM :: rest) ds δs hpre
  constructor
  · intro r δr hsucc
    rw [hbase]
    simp only [routeAux, hsucc]
    rw [List.range_succ, List.map_append]
    rfl
  · intro s δr hfail
    rw [hbase]
    simp only [routeAux, hfail]
    rw [List.range_succ, List.map_append]
    rfl


theorem route_dispatch_loop_witness :
    routeAux ([fwdHandler] ++ succHandler :: [failHandler]) 0 [] =
      ((.success respW, []), [0, 1]) := by
  have h := (route_dispatch_loop [fwdHandler] [failHandler] succHandler
    (fun k => k) (fun _ => []) (fun k hk => by
      have hk0 : k = 0 := by simpa using hk
      subst hk0
      rfl)).1 respW [] rfl
  simpa using h


theorem route_and_process_success (env : Env) (m : Method) (d : Data) (δ : Delta)
    (resp : Response) (δ1 : Delta)
    (h : route (env.candidates m) d δ = (.success resp, δ1)) :
    route_and_process env m d δ = mergeDelta resp δ1 := by
  rw [route_and_process.eq_def, h]


theorem route_and_process_forward_head (env : Env) (d : Data) (δ : Delta)
    (d1 : Data) (δ1 : Delta)
    (h : route (env.candidates .head) d δ = (.forward d1, δ1)) :
    route_and_process env .head d δ = route_and_process env .get d1 δ1 := by
  rw [route_and_process.eq_def, h]
  simp


theorem route_and_process_forward_other (env : Env) (m : Method) (d : Data) (δ : Delta)
    (d1 : Data) (δ1 : Delta) (hm : m ≠ .head)
    (h : route (env.candidates m) d δ = (.forward d1, δ1)) :
    route_and_process env m d δ =
      mergeDelta (handle_error env 404 δ1).1 (handle_error env 404 δ1).2 := by
  rw [route_and_process.eq_def, h]
  simp [hm]


theorem route_and_process_failure (env : Env) (m : Method) (d : Data) (δ : Delta)
    (s : Nat) (δ1 : Delta)
    (h : route (env.candidates m) d δ = (.failure s, δ1)) :
    route_and_process env m d δ =
      mergeDelta (handle_error env s δ1).1 (handle_error env s δ1).2 := by
  rw [route_and_process.eq_def, h]


/-- Claim C3: for a HEAD request whose candidates are exhausted with no
terminal outcome, the dispatch is retried exactly once with the method
rewritten to GET (a second forward escalates to 404, with no further
retry), and the final response is the GET response with the body stripped
and the headers unchanged; for any other method with exhausted candidates,
dispatch escalates to not-found handling. -/
theorem dispatch_head_fallback (env : Env) :
    (∀ d δ d1 δ1, route (env.candidates .head) d δ = (.forward d1, δ1) →
      route_and_process env .head d δ = route_and_process env .get d1 δ1
      ∧ dispatch env .head d δ
          = stripBody (postProcess env (route_and_process env .get d1 δ1))
      ∧ (dispatch env .head d δ).body = none
      ∧ (dispatch env .head d δ).headers
          = (postProcess env (route_and_process env .get d1 δ1)).headers
      ∧ (∀ d2 δ2, route (env.candidates .get) d1 δ1 = (.forward d2, δ2) →
          route_and_process env .head d δ =
            mergeDelta (handle_error env 404 δ2).1 (handle_error env 404 δ2).2))
    ∧ (∀ (m : Method) d δ d1 δ1, m ≠ .head →
        route (env.candidates m) d δ = (.forward d1, δ1) →
        route_and_process env m d δ =
          mergeDelta (handle_error env 404 δ1).1 (handle_error env 404 δ1).2) := by
  constructor
  · intro d δ d1 δ1 hfwd
    have h1 := route_and_process_forward_head env d δ d1 δ1 hfwd
    have h2 : dispatch env .head d δ
        = stripBody (postProcess env (route_and_process env .get d1 δ1)) := by
      simp only [dispatch, h1]
      simp
    refine ⟨h1, h2, by rw [h2]; rfl, by rw [h2]; rfl, ?_⟩
    intro d2 δ2 hfwd2
    rw [h1]
    exact route_and_process_forward_other env .get d1 δ1 d2 δ2 (by simp) hfwd2
  · intro m d δ d1 δ1 hm hfwd
    exact route_and_process_forward_other env m d δ d1 δ1 hm hfwd


/-- Claim C4: catcher escalation always terminates in a response: the
exact-code catcher is consulted first; if absent, the single registered
default catcher; if that is absent the built-in generator answers, and a
non-`Ok` outcome of whichever catcher ran falls back to the built-in 500
response — the chain always yields a response. -/
theorem handle_error_three_level (env : Env) (status : Nat) (δ : Delta) :
    ∃ resp δ1, handle_error env status δ = (resp, δ1) ∧
      ((∃ c, env.catchers status = some c ∧
          ((∃ δ2, c status [] = (.ok resp, δ2)) ∨
            (∃ s δ2, c status [] = (.err s, δ2) ∧ resp = env.builtin 500)))
        ∨ (env.catchers status = none ∧ (∃ dc, env.defaultCatcher = some dc ∧
          ((∃ δ2, dc status [] = (.ok resp, δ2)) ∨
            (∃ s δ2, dc status [] = (.err s, δ2) ∧ resp = env.builtin 500))))
        ∨ (env.catchers status = none ∧ env.defaultCatcher = none ∧
            resp = env.builtin status)) := by
  cases hc : env.catchers status with
  | some c =>
    rcases hcr : c status [] with ⟨res, δ2⟩
    cases res with
    | ok r =>
      refine ⟨r, δ2, ?_, Or.inl ⟨c, rfl, Or.inl ⟨δ2, hcr⟩⟩⟩
      simp [handle_error, hc, hcr]
    | err s =>
      refine ⟨env.builtin 500, δ2, ?_, Or.inl ⟨c, rfl, Or.inr ⟨s, δ2, hcr, rfl⟩⟩⟩
      simp [handle_error, hc, hcr]
  | none =>
    cases hd : env.defaultCatcher with
    | some dc =>
      rcases hcr : dc status [] with ⟨res, δ2⟩
      cases res with
      | ok r =>
        refine ⟨r, δ2, ?_, Or.inr (Or.inl ⟨rfl, dc, rfl, Or.inl ⟨δ2, hcr⟩⟩)⟩
        simp [handle_error, hc, hd, hcr]
      | err s =>
        refine ⟨env.builtin 500, δ2, ?_,
          Or.inr (Or.inl ⟨rfl, dc, rfl, Or.inr ⟨s, δ2, hcr, rfl⟩⟩)⟩
        simp [handle_error, hc, hd, hcr]
    | none =>
      refine ⟨env.builtin status, [], ?_, Or.inr (Or.inr ⟨rfl, rfl, rfl⟩)⟩
      simp [handle_error, hc, hd]


/-- Claim C8: response-scoped cookie mutations accumulated during a
dispatch are merged into the outgoing response exactly once (appended to
its headers), and only on a terminal `Success`; on a `Failure` the
accumulated delta is discarded — `handle_error` is independent of it — and
the catcher observes an empty delta. -/
theorem delta_merge_policy (env : Env) (m : Method) (d : Data) (δ : Delta) :
    (∀ resp δ1, route (env.candidates m) d δ = (.success resp, δ1) →
      route_and_process env m d δ = mergeDelta resp δ1
      ∧ (mergeDelta resp δ1).headers
          = resp.headers ++ δ1.map (fun c => ("Set-Cookie", c)))
    ∧ (∀ s δ1, route (env.candidates m) d δ = (.failure s, δ1) →
      route_and_process env m d δ
          = mergeDelta (handle_error env s δ1).1 (handle_error env s δ1).2
      ∧ (∀ δ2, handle_error env s δ1 = handle_error env s δ2)
      ∧ (∀ c, env.catchers s = some c →
          handle_error env s δ1 =
            (match c s [] with
              | (.ok r, δc) => (r, δc)
              | (.err _, δc) => (env.builtin 500, δc)))) := by
  constructor
  · intro resp δ1 hs
    exact ⟨route_and_process_success env m d δ resp δ1 hs, rfl⟩
  · intro s δ1 hf
    refine ⟨route_and_process_failure env m d δ s δ1 hf, fun δ2 => rfl, ?_⟩
    intro c hc
    rcases hcr : c s [] with ⟨res, δc⟩
    cases res with
    | ok r => simp [handle_error, hc, hcr]
    | err e => simp [handle_error, hc, hcr]


theorem dispatch_head_fallback_witness :
    route (envW.candidates .head) 0 [] = (.forward 1, [])
    ∧ (dispatch envW .head 0 []).body = none
    ∧ (dispatch envW .head 0 []).headers
        = (postProcess envW (route_and_process envW .get 1 [])).headers := by
  have hfwd : route (envW.candidates .head) 0 [] = (.forward 1, []) := rfl
  have h := (dispatch_head_fallback envW).1 0 [] 1 [] hfwd
  exact ⟨hfwd, h.2.2.1, h.2.2.2.1⟩


theorem delta_merge_policy_witness :
    route (envS.candidates .get) 0 ["c0"] = (.success respW, ["c1", "c0"])
    ∧ route_and_process envS .get 0 ["c0"] = mergeDelta respW ["c1", "c0"]
    ∧ route (envF.candidates .get) 0 ["h0"] = (.failure 418, ["h1", "h0"])
    ∧ route_and_process envF .get 0 ["h0"]
        = mergeDelta (handle_error envF 418 ["h1", "h0"]).1
            (handle_error envF 418 ["h1", "h0"]).2
    ∧ handle_error envF 418 ["h1", "h0"] = handle_error envF 418 [] := by
  have h1 : route (envS.candidates .get) 0 ["c0"] = (.success respW, ["c1", "c0"]) := rfl
  have h2 : route (envF.candidates .get) 0 ["h0"] = (.failure 418, ["h1", "h0"]) := rfl
  have hA := (delta_merge_policy envS .get 0 ["c0"]).1 respW ["c1", "c0"] h1
  have hB := (delta_merge_policy envF .get 0 ["h0"]).2 418 ["h1", "h0"] h2
  exact ⟨h1, hA.1, h2, hB.1, hB.2.1 []⟩


/-- Claim C9 exhibit: with debug logging active and no parameters bound,
`get_param` crashes (the `debug!` message evaluates
`params.as_ref().unwrap()` on `None`) instead of returning `NoKey`; in
every other case it behaves as the claim states (`NoKey` out of range,
`BadParse` on failed conversion, the converted value otherwise). -/
theorem get_param_unbound_params_crash :
    get_param true none 0 (fun s => some s) = ParamOutcome.panicked
    ∧ get_param false none 0 (fun s => some s) = ParamOutcome.noKey
    ∧ get_param true (some [['a']]) 1 (fun s => some s) = ParamOutcome.noKey
    ∧ get_param true (some [['a']]) 0 (fun _ => (none : Option Nat)) = ParamOutcome.badParse
    ∧ get_param true (some [['a']]) 0 (fun s => some s) = ParamOutcome.ok ['a'] := by
  decide

end Rocket
